import Mathlib

/-!
Verification development for the incremental-export core of WechatExporter.

The definitions below are a shallow embedding of
`src/WechatExporter/core/Exporter.cpp` (fragment-log framing, merge,
session export loop, context loading, backup-index loading) and of the
catalog range query `ITunesDb::filter` from `ITunesParser.h`.

Modelling conventions:
* a byte sequence is a `List Nat` with each element a byte value;
* machine `uint32` values are `Nat` taken `% 2 ^ 32` where the C++ cast
  truncates (`htonl(static_cast<uint32_t>(...))`);
* message identifiers (`int64_t msgIdValue`) are `Int`;
* the option bitset `m_options` is a structure of booleans, one per
  `SPO_*` flag that the embedded code inspects;
* file-system effects are explicit: a file is its byte content, a missing
  file is `none`, and `writeFile` / `appendFile` are pure state updates.
-/

/-- Big-endian image of a 32-bit value: the four bytes that
`htonl(static_cast<uint32_t>(n))` leaves in memory, as written by
`Exporter::serializeMessages` (Exporter.cpp:897, 903). -/
def u32be (n : Nat) : List Nat :=
  [n / 2 ^ 24 % 256, n / 2 ^ 16 % 256, n / 2 ^ 8 % 256, n % 256]

/-- Value a 4-byte big-endian field decodes to: the `memcpy` of four bytes
followed by `ntohl` in `Exporter::unserializeMessages`
(Exporter.cpp:926-928, 940-942). -/
def readU32be (l : List Nat) : Nat :=
  l.getD 0 0 * 2 ^ 24 + l.getD 1 0 * 2 ^ 16 + l.getD 2 0 * 2 ^ 8 + l.getD 3 0

/-- File-system primitive `writeFile`: truncates the target file and
replaces its whole content. -/
def writeFile (_oldContent newContent : List Nat) : List Nat :=
  newContent

/-- File-system primitive `appendFile`: appends bytes at the end of the
file. -/
def appendFile (content added : List Nat) : List Nat :=
  content ++ added

/-- `Exporter::serializeMessages` (Exporter.cpp:895-907): truncate the
file (`writeFile(fileName, "")`), append the big-endian fragment count,
then for each fragment append its big-endian length and its raw bytes.
The first argument is the previous content of the target file. -/
def serializeMessages (file : List Nat) (messages : List (List Nat)) : List Nat :=
  let f0 := writeFile file []
  let f1 := appendFile f0 (u32be messages.length)
  messages.foldl (fun f m => appendFile (appendFile f (u32be m.length)) m) f1

/-- Loop body of `Exporter::unserializeMessages` (Exporter.cpp:934-951):
starting at `offset` with `fuel` entries still announced by the count
field, stop whenever the next 4-byte length field or the announced
payload would run past the end of `data`, otherwise extract the payload
and continue.  `acc` holds the entries read so far, newest first
(`messages.emplace_back`). -/
def unserializeLoop (data : List Nat) : Nat → Nat → List (List Nat) → List (List Nat)
  | _, 0, acc => acc.reverse
  | offset, fuel + 1, acc =>
    if offset + 4 > data.length then acc.reverse
    else if offset + 4 + readU32be (data.drop offset) > data.length then acc.reverse
    else unserializeLoop data (offset + 4 + readU32be (data.drop offset)) fuel
      (((data.drop (offset + 4)).take (readU32be (data.drop offset))) :: acc)

/-- `Exporter::unserializeMessages` (Exporter.cpp:909-952).  `fileData` is
the content of the fragment-log file (`none` when `readFile` fails), and
`messages` is the incoming value of the out-parameter vector: the C++
clears it when the read fails or once parsing starts, but returns it
untouched when the data is shorter than the 4-byte count field. -/
def unserializeMessages (fileData : Option (List Nat)) (messages : List (List Nat)) :
    List (List Nat) :=
  match fileData with
  | none => []
  | some data =>
    if data.length < 4 then messages
    else unserializeLoop data 4 (readU32be data) []

/-- Structural decoder for a sequence of length-framed entries: reads at
most `fuel` entries and stops cleanly at the first frame that does not
fit in the remaining bytes.  Used to state what the offset-based loop of
`unserializeMessages` computes. -/
def parseEntries : List Nat → Nat → List (List Nat)
  | _, 0 => []
  | rem, fuel + 1 =>
    if rem.length < 4 then []
    else if (rem.drop 4).length < readU32be rem then []
    else (rem.drop 4).take (readU32be rem) ::
      parseEntries ((rem.drop 4).drop (readU32be rem)) fuel

/-- Number of entries of `msgs` whose complete frame (4-byte length field
plus payload) fits inside the first `s` bytes of the entry stream.  This
is the "fully-readable prefix" wording of the specification, stated on
the original fragment list. -/
def readableCount : List (List Nat) → Nat → Nat
  | [], _ => 0
  | m :: rest, s => if 4 + m.length ≤ s then 1 + readableCount rest (s - (4 + m.length)) else 0

/-- Entry stream of a fragment list: for each fragment its big-endian
length followed by its raw bytes. -/
def frames : List (List Nat) → List Nat
  | [] => []
  | m :: rest => u32be m.length ++ (m ++ frames rest)

/-- Stream layout stated by the specification: `count:uint32(big-endian)`
followed by `count` entries of `length:uint32(big-endian)` plus `length`
raw bytes. -/
def fragmentLogStream (messages : List (List Nat)) : List Nat :=
  u32be messages.length ++ frames messages

/-- Option bitset `m_options` of `Exporter`, restricted to the `SPO_*`
flags the embedded code inspects (`SPO_TEXT_MODE`, `SPO_DESC`,
`SPO_SYNC_LOADING`, `SPO_INCREMENTAL_EXP`). -/
structure SPOptions where
  textMode : Bool
  desc : Bool
  syncLoading : Bool
  incrementalExp : Bool
deriving DecidableEq

/-- `Exporter::mergeMessages` (Exporter.cpp:954-967): read the previous
fragments back from the log file, then, when the order option is
ascending (`(m_options & SPO_DESC) == 0`), swap the two vectors before
appending, so the result is old fragments followed by new ones; in
descending order the new fragments stay in front. -/
def mergeMessages (opts : SPOptions) (fileData : Option (List Nat))
    (messages : List (List Nat)) : List (List Nat) :=
  let orgMessages := unserializeMessages fileData []
  if opts.desc = false then orgMessages ++ messages
  else messages ++ orgMessages

/-- Association-list update used for the per-conversation mapping of the
export context: replaces the binding for `key`, or appends a new one. -/
def setAssoc : List (String × Int) → String → Int → List (String × Int)
  | [], key, v => [(key, v)]
  | (k, w) :: t, key, v => if k = key then (key, v) :: t else (k, w) :: setAssoc t key v

/-- Association-list lookup for the per-conversation mapping of the
export context. -/
def getAssoc : List (String × Int) → String → Option Int
  | [], _ => none
  | (k, w) :: t, key => if k = key then some w else getAssoc t key

/-- Modelled from the spec: `ExportContext` (ExportContext.h is not among
the embedded sources) is the persisted pass state of spec section 3,
`{ options, perConversation mapping conversationId → maxProcessedRecordId }`
(the export timestamp plays no role in the claims and is omitted). -/
structure ExportContext where
  options : SPOptions
  maxIds : List (String × Int)
deriving DecidableEq

/-- Modelled from the spec: `ExportContext::getMaxId` combined with the
`int64_t maxMsgId = 0` initialisation at Exporter.cpp:771-772 — the stored
high-water mark of a conversation, `0` when none is stored. -/
def getMaxId (ctx : ExportContext) (usrName : String) : Int :=
  (getAssoc ctx.maxIds usrName).getD 0

/-- Modelled from the spec: `ExportContext::setMaxId` stores the
high-water mark of one conversation. -/
def setMaxId (ctx : ExportContext) (usrName : String) (v : Int) : ExportContext :=
  { ctx with maxIds := setAssoc ctx.maxIds usrName v }

/-- Modelled from the spec: `ExportContext::getNumberOfSessions` is the
number of conversations recorded in the persisted mapping. -/
def getNumberOfSessions (ctx : ExportContext) : Nat :=
  ctx.maxIds.length

/-- `Exporter::loadExportContext` (Exporter.cpp:100-114): empty file
content (also what reading a missing file produces), failing
unserialization, or a context describing zero sessions all yield `none`,
meaning "no prior context".  `unser` is the outcome of
`ExportContext::unserialize` on the file content (that method is not
among the embedded sources and is kept abstract). -/
def loadExportContext (unser : List Nat → Option ExportContext) (contents : List Nat) :
    Option ExportContext :=
  if contents.isEmpty = true then none
  else
    match unser contents with
    | none => none
    | some ctx => if getNumberOfSessions ctx = 0 then none else some ctx

/-- Context set-up step of `Exporter::runImpl` (Exporter.cpp:354-369): on
an incremental run whose prior context loads, the pass adopts the stored
options with the incremental flag forced on; otherwise it keeps a fresh
empty context whose options are the current pass options.  Returns the
pair (context in use, effective options). -/
def runImplContextSetup (opts : SPOptions) (unser : List Nat → Option ExportContext)
    (contents : List Nat) : ExportContext × SPOptions :=
  if opts.incrementalExp = true then
    match loadExportContext unser contents with
    | some ctx => (ctx, { ctx.options with incrementalExp := true })
    | none => ({ options := opts, maxIds := [] }, opts)
  else ({ options := opts, maxIds := [] }, opts)

/-- Record-enumeration loop of `Exporter::exportSession`
(Exporter.cpp:779-796).  `records` holds the `(msgIdValue, rendered
fragment)` pairs the message enumerator yields, `cancel n` is the value
of the level-triggered `m_cancelled` flag as observed after the `n`-th
record, and `acc` collects rendered fragments newest first
(`messages.push_back`).  Returns the final `maxMsgId`, `numberOfMsgs`,
and the rendered fragments in order. -/
def enumLoop (cancel : Nat → Bool) :
    List (Int × List Nat) → Int → Nat → List (List Nat) → Int × Nat × List (List Nat)
  | [], maxMsgId, numberOfMsgs, acc => (maxMsgId, numberOfMsgs, acc.reverse)
  | (msgId, frag) :: rest, maxMsgId, numberOfMsgs, acc =>
    if cancel (numberOfMsgs + 1) = true then
      (if msgId > maxMsgId then msgId else maxMsgId, numberOfMsgs + 1, (frag :: acc).reverse)
    else
      enumLoop cancel rest (if msgId > maxMsgId then msgId else maxMsgId)
        (numberOfMsgs + 1) (frag :: acc)

/-- Data-chunk page loop of `Exporter::exportSession`
(Exporter.cpp:853-874): starting at index `b`, every page takes
`pageSize` fragments except the last one, which runs to the end of
`messages`.  `remaining` counts pages still to write, so the last page is
the call with `remaining = 1`. -/
def buildPages (messages : List (List Nat)) (pageSize : Nat) :
    Nat → Nat → List (List (List Nat))
  | _, 0 => []
  | b, r + 1 =>
    let e := if r = 0 then messages.length else b + pageSize
    ((messages.drop b).take (e - b)) :: buildPages messages pageSize e r

/-- Observable outcome of `Exporter::exportSession` for one conversation:
the updated export context, the bytes written to the fragment-log file
(`none` when nothing is written because the conversation store is empty),
the number of records rendered, the fragments shipped inline in the shell
document (`none` when no shell document is written), and the fragment
chunks of the on-demand data pages. -/
structure SessionExport where
  ctx : ExportContext
  logFile : Option (List Nat)
  numberOfMsgs : Nat
  shell : Option (List (List Nat))
  dataPages : List (List (List Nat))
deriving DecidableEq

/-- `Exporter::exportSession` (Exporter.cpp:745-881): skip conversations
with an empty store; enumerate records above the stored high-water mark,
raising `maxMsgId` and collecting one rendered fragment per record until
the cancellation flag is observed; store the new high-water mark when it
is positive; on an incremental run merge with the prior fragment log;
rewrite the fragment log; then, when anything was rendered, write the
shell document (whose inline part is everything in text or synchronous
mode, or when the fragments fit in one page, and the first page
otherwise) and split the remainder into data-chunk pages unless in
synchronous mode.  `records` is the enumerator output and `fileData` the
prior content of the conversation's fragment-log file. -/
def exportSession (opts : SPOptions) (pageSize : Nat) (ctx : ExportContext)
    (usrName : String) (dbFileEmpty : Bool) (records : List (Int × List Nat))
    (fileData : Option (List Nat)) (cancel : Nat → Bool) : SessionExport :=
  if dbFileEmpty = true then
    { ctx := ctx, logFile := none, numberOfMsgs := 0, shell := none, dataPages := [] }
  else
    let r := enumLoop cancel records (getMaxId ctx usrName) 0 []
    let ctx2 := if r.1 > 0 then setMaxId ctx usrName r.1 else ctx
    let messages := if opts.incrementalExp = true then mergeMessages opts fileData r.2.2
      else r.2.2
    let logFile := serializeMessages (fileData.getD []) messages
    if 0 < r.2.1 ∧ messages ≠ [] then
      let e := if opts.textMode = true ∨ opts.syncLoading = true ∨ messages.length ≤ pageSize
        then messages.length else pageSize
      let numberOfPages := (messages.length - e + pageSize - 1) / pageSize
      { ctx := ctx2, logFile := some logFile, numberOfMsgs := r.2.1,
        shell := some (messages.take e),
        dataPages := if opts.syncLoading = false ∧ 0 < numberOfPages then
          buildPages messages pageSize e numberOfPages else [] }
    else
      { ctx := ctx2, logFile := some logFile, numberOfMsgs := r.2.1, shell := none,
        dataPages := [] }

/-- `Exporter::loadITunes` (Exporter.cpp:1029-1052): failure to load the
primary application domain `AppDomain-com.tencent.xin` aborts the load;
the result of loading the companion shared-group domain
`AppDomainGroup-group.com.tencent.xin` is ignored (the source comments it
as `Optional`).  The two booleans are the outcomes of the corresponding
`ITunesDb::load` calls, whose implementation is external to the embedded
sources. -/
def loadITunes (primaryOk shareOk : Bool) : Bool :=
  if primaryOk = false then false
  else true

/-- Output-producing part of `Exporter::runImpl` guarded by `loadITunes`
(Exporter.cpp:314-319): when the backup index fails to load, the pass
returns before producing any output artifact. -/
def runImplOutputs (primaryOk shareOk : Bool) (outputs : List String) : List String :=
  if loadITunes primaryOk shareOk = false then []
  else outputs

/-- Catalog record of the backup index (`ITunesFile`, ITunesParser.h:21-37),
restricted to the fields the range query consults. -/
structure ITunesFile where
  fileId : String
  relativePath : String
  flags : Nat
deriving DecidableEq

/-- Caller-supplied filter object of `ITunesDb::filter`
(ITunesParser.h:205-222): `std::equal_range(m_files, f, f)` invokes it
both ways around as a comparator, and `f == record` as the match test.
`fileLtObj e` is `comp(e, f)` (the record sorts before the queried
range), `objLtFile e` is `comp(f, e)` (the record sorts after the
range), and `matchesObj e` is `f == e`. -/
structure TFilter where
  fileLtObj : ITunesFile → Bool
  objLtFile : ITunesFile → Bool
  matchesObj : ITunesFile → Bool

/-- Backup index: the path-sorted catalog `m_files` of `ITunesDb`. -/
structure ITunesDb where
  files : List ITunesFile

/-- `ITunesDb::filter` (ITunesParser.h:205-222): `std::equal_range` over
the sorted catalog with the filter object acting as both value and
comparator, then a scan of the resulting range keeping the records the
filter accepts.  On a catalog partitioned with respect to the comparator
(the precondition of `std::equal_range`), the binary-search range is
exactly the contiguous block that is neither before nor after the queried
range, modelled with `dropWhile` / `takeWhile`. -/
def ITunesDb.filter (db : ITunesDb) (f : TFilter) : List ITunesFile :=
  ((db.files.dropWhile f.fileLtObj).takeWhile (fun e => !(f.objLtFile e))).filter
    (fun e => f.matchesObj e)

/-- Pass options of the specification's pagination scenario: HTML output
(not text mode), ascending order, asynchronous loading, first incremental
run. -/
def scenarioOpts : SPOptions :=
  { textMode := false, desc := false, syncLoading := false, incrementalExp := true }

/-- Enumerator output of the specification's pagination scenario: 1500
records with identifiers 1..1500, each rendering to one (empty) fragment. -/
def scenarioRecords : List (Int × List Nat) :=
  (List.range 1500).map (fun i : Nat => ((i : Int) + 1, []))

/-- Outcome of exporting the scenario conversation: page size 1000, fresh
context, no prior fragment log, no cancellation. -/
def scenarioResult : SessionExport :=
  exportSession scenarioOpts 1000 { options := scenarioOpts, maxIds := [] } "chat" false
    scenarioRecords none (fun _ => false)

-- Basic facts about the framing primitives.

theorem u32be_length (n : Nat) : (u32be n).length = 4 := rfl

theorem readU32be_u32be (n : Nat) (rest : List Nat) :
    readU32be (u32be n ++ rest) = n % 2 ^ 32 := by
  simp only [u32be, readU32be, List.cons_append, List.nil_append, List.getD_cons_zero,
    List.getD_cons_succ]
  omega

theorem serializeMessages_foldl (messages : List (List Nat)) :
    ∀ acc : List Nat,
      messages.foldl (fun f m => f ++ u32be m.length ++ m) acc = acc ++ frames messages := by
  induction messages with
  | nil => intro acc; simp [frames]
  | cons m rest ih =>
    intro acc
    rw [List.foldl_cons, ih]
    simp [frames, List.append_assoc]

/-- The serializer produces exactly the specified stream, whatever the
previous content of the file was. -/
theorem serializeMessages_stream (file : List Nat) (messages : List (List Nat)) :
    serializeMessages file messages = fragmentLogStream messages := by
  simp only [serializeMessages, writeFile, appendFile, fragmentLogStream,
    serializeMessages_foldl, List.nil_append]

theorem parseEntries_nil (fuel : Nat) : parseEntries [] fuel = [] := by
  cases fuel <;> simp [parseEntries]

/-- The offset-based reading loop of `unserializeMessages` computes the
structural decoder applied to the bytes after the current offset; in
particular it only ever reads inside `data`. -/
theorem unserializeLoop_eq_parseEntries (data : List Nat) :
    ∀ (fuel offset : Nat) (acc : List (List Nat)), offset ≤ data.length →
      unserializeLoop data offset fuel acc =
        acc.reverse ++ parseEntries (data.drop offset) fuel := by
  intro fuel
  induction fuel with
  | zero => intro offset acc _; simp [unserializeLoop, parseEntries]
  | succ fuel ih =>
    intro offset acc hoff
    by_cases h4 : offset + 4 > data.length
    · have hlen : (data.drop offset).length < 4 := by
        rw [List.length_drop]; omega
      have hstop : unserializeLoop data offset (fuel + 1) acc = acc.reverse := by
        simp [unserializeLoop, h4]
      rw [hstop]
      conv_rhs => rw [parseEntries]
      rw [if_pos hlen]
      simp
    · have hlenneg : ¬ (data.drop offset).length < 4 := by
        rw [List.length_drop]; omega
      by_cases h5 : offset + 4 + readU32be (data.drop offset) > data.length
      · have h5len : ((data.drop offset).drop 4).length < readU32be (data.drop offset) := by
          rw [List.drop_drop, List.length_drop]; omega
        have hstop : unserializeLoop data offset (fuel + 1) acc = acc.reverse := by
          simp [unserializeLoop, h4, h5]
        rw [hstop]
        conv_rhs => rw [parseEntries]
        rw [if_neg hlenneg, if_pos h5len]
        simp
      · have h5lenneg : ¬ ((data.drop offset).drop 4).length < readU32be (data.drop offset) := by
          rw [List.drop_drop, List.length_drop]; omega
        have hstep : unserializeLoop data offset (fuel + 1) acc =
            unserializeLoop data (offset + 4 + readU32be (data.drop offset)) fuel
              (((data.drop (offset + 4)).take (readU32be (data.drop offset))) :: acc) := by
          simp [unserializeLoop, h4, h5]
        rw [hstep, ih _ _ (by omega)]
        conv_rhs => rw [parseEntries]
        rw [if_neg hlenneg, if_neg h5lenneg]
        simp only [List.drop_drop]
        simp [List.reverse_cons, List.append_assoc]

theorem readableCount_zero (msgs : List (List Nat)) : readableCount msgs 0 = 0 := by
  cases msgs with
  | nil => rfl
  | cons m rest => simp [readableCount]

/-- Decoding a truncated entry stream yields exactly the fully readable
leading entries. -/
theorem parseEntries_frames_take :
    ∀ (msgs : List (List Nat)) (s fuel : Nat), (∀ m ∈ msgs, m.length < 2 ^ 32) →
      msgs.length ≤ fuel →
      parseEntries ((frames msgs).take s) fuel = msgs.take (readableCount msgs s) := by
  intro msgs
  induction msgs with
  | nil => intro s fuel _ _; simp [frames, readableCount, parseEntries_nil]
  | cons m rest ih =>
    intro s fuel hm hf
    cases fuel with
    | zero => simp only [List.length_cons] at hf; omega
    | succ fuel =>
      by_cases hs : s < 4
      · have hguard : ((frames (m :: rest)).take s).length < 4 := by
          simp only [List.length_take]; omega
        have hrc : readableCount (m :: rest) s = 0 := by
          simp only [readableCount]
          rw [if_neg (by omega)]
        rw [hrc]
        conv_lhs => rw [parseEntries]
        rw [if_pos hguard]
        simp
      · have hsplit : (frames (m :: rest)).take s =
            u32be m.length ++ (m ++ frames rest).take (s - 4) := by
          rw [frames, List.take_append_eq_append_take,
            List.take_of_length_le (by rw [u32be_length]; omega), u32be_length]
        have hlen4 : ¬ (u32be m.length ++ (m ++ frames rest).take (s - 4)).length < 4 := by
          simp [List.length_append, u32be_length]
        have hread : readU32be (u32be m.length ++ (m ++ frames rest).take (s - 4)) =
            m.length := by
          rw [readU32be_u32be, Nat.mod_eq_of_lt (hm m (by simp))]
        have hdrop : (u32be m.length ++ (m ++ frames rest).take (s - 4)).drop 4 =
            (m ++ frames rest).take (s - 4) := List.drop_left' (u32be_length _)
        by_cases hfit : 4 + m.length ≤ s
        · have hguard2 : ¬ ((m ++ frames rest).take (s - 4)).length < m.length := by
            simp only [List.length_take, List.length_append]; omega
          have htake : ((m ++ frames rest).take (s - 4)).take m.length = m := by
            rw [List.take_take, Nat.min_eq_left (by omega)]
            exact List.take_left' rfl
          have hdrop2 : ((m ++ frames rest).take (s - 4)).drop m.length =
              (frames rest).take (s - 4 - m.length) := by
            rw [List.drop_take, List.drop_left' rfl]
          have hrc : readableCount (m :: rest) s =
              1 + readableCount rest (s - (4 + m.length)) := by
            simp only [readableCount]
            rw [if_pos hfit]
          rw [hsplit]
          conv_lhs => rw [parseEntries]
          rw [if_neg hlen4]
          simp only [hread, hdrop]
          rw [if_neg hguard2, htake, hdrop2,
            ih _ _ (fun x hx => hm x (by simp [hx])) (by simpa using hf)]
          rw [hrc]
          have harg : s - (4 + m.length) = s - 4 - m.length := by omega
          rw [harg, Nat.add_comm 1 _, List.take_succ_cons]
        · have hguard2 : ((m ++ frames rest).take (s - 4)).length < m.length := by
            simp only [List.length_take, List.length_append]; omega
          have hrc : readableCount (m :: rest) s = 0 := by
            simp only [readableCount]
            rw [if_neg (by omega)]
          rw [hsplit, hrc]
          conv_lhs => rw [parseEntries]
          rw [if_neg hlen4]
          simp only [hread, hdrop]
          rw [if_pos hguard2]
          simp

theorem unserializeMessages_none (m0 : List (List Nat)) : unserializeMessages none m0 = [] :=
  rfl

theorem unserializeMessages_short (data : List Nat) (h : data.length < 4) :
    unserializeMessages (some data) [] = [] := by
  simp [unserializeMessages, h]

theorem unserializeMessages_parse (data : List Nat) (h : 4 ≤ data.length) :
    unserializeMessages (some data) [] = parseEntries (data.drop 4) (readU32be data) := by
  simp only [unserializeMessages, if_neg (by omega : ¬ data.length < 4)]
  rw [unserializeLoop_eq_parseEntries data (readU32be data) 4 [] h]
  simp

/-- Reading back any byte-level truncation of a serialized fragment log
returns exactly the fully readable leading fragments. -/
theorem unserializeMessages_take_serialize (prior : List Nat) (msgs : List (List Nat)) (t : Nat)
    (hm : ∀ m ∈ msgs, m.length < 2 ^ 32) (hc : msgs.length < 2 ^ 32) :
    unserializeMessages (some ((serializeMessages prior msgs).take t)) [] =
      msgs.take (readableCount msgs (t - 4)) := by
  rw [serializeMessages_stream]
  by_cases ht : t < 4
  · have hlen : ((fragmentLogStream msgs).take t).length < 4 := by
      simp only [List.length_take]; omega
    have ht0 : t - 4 = 0 := by omega
    rw [unserializeMessages_short _ hlen, ht0, readableCount_zero, List.take_zero]
  · have hsplit : (fragmentLogStream msgs).take t =
        u32be msgs.length ++ (frames msgs).take (t - 4) := by
      rw [fragmentLogStream, List.take_append_eq_append_take,
        List.take_of_length_le (by rw [u32be_length]; omega), u32be_length]
    rw [hsplit]
    have hlen : 4 ≤ (u32be msgs.length ++ (frames msgs).take (t - 4)).length := by
      simp [List.length_append, u32be_length]
    rw [unserializeMessages_parse _ hlen, List.drop_left' (u32be_length _),
      readU32be_u32be, Nat.mod_eq_of_lt hc,
      parseEntries_frames_take msgs _ _ hm (Nat.le_refl _)]

theorem readableCount_frames_eq (msgs : List (List Nat)) :
    readableCount msgs (frames msgs).length = msgs.length := by
  induction msgs with
  | nil => rfl
  | cons m rest ih =>
    simp only [frames, readableCount, List.length_append, u32be_length, List.length_cons]
    rw [if_pos (by omega)]
    rw [show 4 + (m.length + (frames rest).length) - (4 + m.length) =
      (frames rest).length from by omega, ih]
    omega

/-- Reading back a fragment log written by `serializeMessages` recovers
the original fragment list. -/
theorem unserializeMessages_serialize (prior : List Nat) (msgs : List (List Nat))
    (hm : ∀ m ∈ msgs, m.length < 2 ^ 32) (hc : msgs.length < 2 ^ 32) :
    unserializeMessages (some (serializeMessages prior msgs)) [] = msgs := by
  have h := unserializeMessages_take_serialize prior msgs
    (serializeMessages prior msgs).length hm hc
  rw [List.take_length] at h
  rw [h]
  have hlen : (serializeMessages prior msgs).length - 4 = (frames msgs).length := by
    rw [serializeMessages_stream]
    simp [fragmentLogStream, List.length_append, u32be_length]
  rw [hlen, readableCount_frames_eq msgs, List.take_length]

/-- C1: merging old fragments read back from the fragment log with newly
rendered fragments always yields the concatenation of the two lists: old
before new exactly when the order option is ascending (`SPO_DESC`
clear), and new before old when it is descending. -/
theorem mergeMessages_concat_order (opts : SPOptions) (prior : List Nat)
    (oldMsgs newMsgs : List (List Nat))
    (hm : ∀ m ∈ oldMsgs, m.length < 2 ^ 32) (hc : oldMsgs.length < 2 ^ 32) :
    mergeMessages opts (some (serializeMessages prior oldMsgs)) newMsgs =
      if opts.desc = true then newMsgs ++ oldMsgs else oldMsgs ++ newMsgs := by
  unfold mergeMessages
  rw [unserializeMessages_serialize prior oldMsgs hm hc]
  cases h : opts.desc <;> simp [h]

/-- Witness for C1 at a concrete pair of fragment lists, in ascending and
in descending order. -/
theorem mergeMessages_concat_order_witness :
    mergeMessages ⟨false, false, false, true⟩ (some (serializeMessages [] [[1], [2]])) [[3]] =
      [[1], [2], [3]] ∧
    mergeMessages ⟨false, true, false, true⟩ (some (serializeMessages [] [[1], [2]])) [[3]] =
      [[3], [1], [2]] := by
  constructor
  · rw [mergeMessages_concat_order _ _ _ _ (by decide) (by decide)]
    decide
  · rw [mergeMessages_concat_order _ _ _ _ (by decide) (by decide)]
    decide

/-- C6: writing a fragment log truncates the target file and emits
exactly the 4-byte big-endian fragment count followed by, for each
fragment in order, a 4-byte big-endian length and the fragment's raw
bytes; the output is a function of the fragment list alone, independent
of the prior file content. -/
theorem serializeMessages_framing (file : List Nat) (messages : List (List Nat)) :
    serializeMessages file messages = fragmentLogStream messages :=
  serializeMessages_stream file messages

/-- C3: the fragment-log reader never fails and never reads out of
bounds: a missing file yields no entries, data too short for the 4-byte
count field yields no entries, arbitrary data is decoded by the
structural decoder that stops cleanly at the first frame running past
end-of-data, and a byte-level truncation of a serialized log yields
exactly the fully readable leading fragments. -/
theorem unserializeMessages_safe_reader :
    (∀ m0 : List (List Nat), unserializeMessages none m0 = []) ∧
    (∀ data : List Nat, data.length < 4 → unserializeMessages (some data) [] = []) ∧
    (∀ data : List Nat, 4 ≤ data.length →
      unserializeMessages (some data) [] = parseEntries (data.drop 4) (readU32be data)) ∧
    (∀ (prior : List Nat) (msgs : List (List Nat)) (t : Nat),
      (∀ m ∈ msgs, m.length < 2 ^ 32) → msgs.length < 2 ^ 32 →
      unserializeMessages (some ((serializeMessages prior msgs).take t)) [] =
        msgs.take (readableCount msgs (t - 4))) :=
  ⟨unserializeMessages_none, unserializeMessages_short, unserializeMessages_parse,
    unserializeMessages_take_serialize⟩

/-- Witness for C3: a log of two fragments truncated right after the
first entry yields exactly the first fragment. -/
theorem unserializeMessages_safe_reader_witness :
    unserializeMessages (some ((serializeMessages [] [[5], [6, 7]]).take 9)) [] = [[5]] := by
  have h := unserializeMessages_safe_reader.2.2.2 [] [[5], [6, 7]] 9 (by decide) (by decide)
  rw [h]
  decide

/-- C10: reading back a freshly written fragment log returns the original
fragment list unchanged, for every list whose count and entry sizes fit
in an unsigned 32-bit integer. -/
theorem fragmentLog_roundtrip (prior : List Nat) (msgs : List (List Nat))
    (hm : ∀ m ∈ msgs, m.length < 2 ^ 32) (hc : msgs.length < 2 ^ 32) :
    unserializeMessages (some (serializeMessages prior msgs)) [] = msgs :=
  unserializeMessages_serialize prior msgs hm hc

/-- Witness for C10 at a concrete fragment list over arbitrary prior file
content. -/
theorem fragmentLog_roundtrip_witness :
    unserializeMessages (some (serializeMessages [7, 7] [[1, 2], [], [255]])) [] =
      [[1, 2], [], [255]] :=
  fragmentLog_roundtrip [7, 7] [[1, 2], [], [255]] (by decide) (by decide)

-- Facts about the per-conversation high-water-mark mapping.

theorem getAssoc_setAssoc_self :
    ∀ (l : List (String × Int)) (key : String) (v : Int),
      getAssoc (setAssoc l key v) key = some v := by
  intro l key v
  induction l with
  | nil => simp [setAssoc, getAssoc]
  | cons p t ih =>
    obtain ⟨a, b⟩ := p
    by_cases h : a = key
    · simp [setAssoc, getAssoc, h]
    · simp [setAssoc, getAssoc, h, ih]

theorem getAssoc_setAssoc_ne :
    ∀ (l : List (String × Int)) (key other : String) (v : Int), key ≠ other →
      getAssoc (setAssoc l key v) other = getAssoc l other := by
  intro l key other v hne
  induction l with
  | nil => simp [setAssoc, getAssoc, hne]
  | cons p t ih =>
    obtain ⟨a, b⟩ := p
    by_cases h : a = key
    · subst h
      simp [setAssoc, getAssoc, hne]
    · by_cases h2 : a = other
      · simp [setAssoc, getAssoc, h, h2, Ne.symm hne]
      · simp [setAssoc, getAssoc, h, h2, ih]

theorem getMaxId_setMaxId_self (ctx : ExportContext) (usrName : String) (v : Int) :
    getMaxId (setMaxId ctx usrName v) usrName = v := by
  simp [getMaxId, setMaxId, getAssoc_setAssoc_self]

theorem getMaxId_setMaxId_ne (ctx : ExportContext) (usrName other : String) (v : Int)
    (h : usrName ≠ other) :
    getMaxId (setMaxId ctx usrName v) other = getMaxId ctx other := by
  simp [getMaxId, setMaxId, getAssoc_setAssoc_ne _ _ _ _ h]

-- Facts about the enumeration loop.

theorem enumLoop_fst_ge (cancel : Nat → Bool) :
    ∀ (records : List (Int × List Nat)) (maxId : Int) (n : Nat) (acc : List (List Nat)),
      maxId ≤ (enumLoop cancel records maxId n acc).1 := by
  intro records
  induction records with
  | nil => intro maxId n acc; simp [enumLoop]
  | cons p rest ih =>
    intro maxId n acc
    obtain ⟨msgId, frag⟩ := p
    by_cases hc : cancel (n + 1) = true
    · simp only [enumLoop, hc, if_true]
      split <;> omega
    · simp only [enumLoop, hc, if_false]
      refine le_trans ?_ (ih _ (n + 1) (frag :: acc))
      split <;> omega

theorem enumLoop_cancelAt (k : Nat) :
    ∀ (records : List (Int × List Nat)) (maxId : Int) (n : Nat) (acc : List (List Nat)),
      n < k → k ≤ n + records.length →
      enumLoop (fun j => decide (k ≤ j)) records maxId n acc =
        (List.foldl (fun mx id => if id > mx then id else mx) maxId
          ((records.take (k - n)).map Prod.fst), k,
          acc.reverse ++ (records.take (k - n)).map Prod.snd) := by
  intro records
  induction records with
  | nil =>
    intro maxId n acc h1 h2
    simp only [List.length_nil] at h2
    omega
  | cons p rest ih =>
    intro maxId n acc h1 h2
    obtain ⟨msgId, frag⟩ := p
    by_cases hk : k ≤ n + 1
    · have hkn : k = n + 1 := by omega
      have htake : k - n = 1 := by omega
      have hstep : enumLoop (fun j => decide (k ≤ j)) ((msgId, frag) :: rest) maxId n acc =
          (if msgId > maxId then msgId else maxId, n + 1, (frag :: acc).reverse) := by
        simp [enumLoop, hk]
      rw [hstep, htake]
      simp [hkn, List.reverse_cons]
    · have hstep : enumLoop (fun j => decide (k ≤ j)) ((msgId, frag) :: rest) maxId n acc =
          enumLoop (fun j => decide (k ≤ j)) rest (if msgId > maxId then msgId else maxId)
            (n + 1) (frag :: acc) := by
        simp [enumLoop, hk]
      rw [hstep, ih _ (n + 1) _ (by omega)
        (by simp only [List.length_cons] at h2; omega)]
      rw [show k - n = (k - (n + 1)) + 1 from by omega, List.take_succ_cons]
      simp [List.reverse_cons, List.append_assoc]

-- Facts about the running maximum over ascending identifier lists.

theorem getLastD_irrel (l : List Int) (d1 d2 : Int) (h : l ≠ []) :
    l.getLastD d1 = l.getLastD d2 := by
  cases l with
  | nil => exact absurd rfl h
  | cons a t => rw [List.getLastD_cons, List.getLastD_cons]

theorem getLastD_mem : ∀ (l : List Int) (d : Int), l ≠ [] → l.getLastD d ∈ l := by
  intro l
  induction l with
  | nil => intro d h; exact absurd rfl h
  | cons a t ih =>
    intro d h
    cases t with
    | nil => simp [List.getLastD]
    | cons b t2 =>
      rw [List.getLastD_cons]
      exact List.mem_cons_of_mem a (ih a (by simp))

theorem foldl_max_ascending :
    ∀ (ids : List Int) (init : Int), (∀ x ∈ ids, init < x) →
      List.Pairwise (fun a b : Int => a < b) ids →
      List.foldl (fun mx id => if id > mx then id else mx) init ids = ids.getLastD init := by
  intro ids
  induction ids with
  | nil => intro init _ _; rfl
  | cons a t ih =>
    intro init hall hpw
    rw [List.foldl_cons, if_pos (hall a (by simp)), List.getLastD_cons]
    exact ih a (fun x hx => (List.pairwise_cons.mp hpw).1 x hx)
      (List.pairwise_cons.mp hpw).2

/-- C4: the persisted per-conversation high-water mark is monotonically
non-decreasing: exporting a session starts from the stored value, raises
it only when an enumerated record identifier exceeds the running maximum,
writes it back only when positive, and therefore never stores a smaller
value than was stored before; entries of other conversations are
untouched. -/
theorem exportSession_maxId_monotone (opts : SPOptions) (pageSize : Nat)
    (ctx : ExportContext) (usrName other : String) (dbFileEmpty : Bool)
    (records : List (Int × List Nat)) (fileData : Option (List Nat)) (cancel : Nat → Bool) :
    getMaxId ctx usrName ≤
      getMaxId (exportSession opts pageSize ctx usrName dbFileEmpty records fileData
        cancel).ctx usrName ∧
    (other = usrName ∨
      getMaxId (exportSession opts pageSize ctx usrName dbFileEmpty records fileData
        cancel).ctx other = getMaxId ctx other) := by
  cases dbFileEmpty with
  | true =>
    constructor
    · simp [exportSession]
    · right
      simp [exportSession]
  | false =>
    simp only [exportSession, Bool.false_eq_true, if_false, apply_ite SessionExport.ctx,
      ite_self]
    constructor
    · by_cases hp : (enumLoop cancel records (getMaxId ctx usrName) 0 []).1 > 0
      · rw [if_pos hp, getMaxId_setMaxId_self]
        exact enumLoop_fst_ge cancel records _ 0 []
      · rw [if_neg hp]
    · by_cases hother : other = usrName
      · exact Or.inl hother
      · right
        by_cases hp : (enumLoop cancel records (getMaxId ctx usrName) 0 []).1 > 0
        · rw [if_pos hp, getMaxId_setMaxId_ne _ _ _ _ (fun h => hother h.symm)]
        · rw [if_neg hp]

/-- C5: when the cancellation flag is first observed after `k` of the
records, the enumeration loop stops having rendered exactly the first
`k` records (cancellation is only checked between records), the
high-water mark is still advanced to the `k`-th record's identifier, and
the fragment log is still rewritten with exactly the `k` rendered
fragments, merged with the prior fragments on an incremental run. -/
theorem exportSession_cancel_flush (opts : SPOptions) (pageSize : Nat)
    (ctx : ExportContext) (usrName : String) (records : List (Int × List Nat))
    (fileData : Option (List Nat)) (k : Nat)
    (hk1 : 1 ≤ k) (hk2 : k ≤ records.length)
    (hasc : List.Pairwise (fun a b : Int => a < b) (records.map Prod.fst))
    (habove : ∀ p ∈ records, getMaxId ctx usrName < p.1)
    (hpos : ∀ p ∈ records, 0 < p.1) :
    (exportSession opts pageSize ctx usrName false records fileData
        (fun j => decide (k ≤ j))).numberOfMsgs = k ∧
    (exportSession opts pageSize ctx usrName false records fileData
        (fun j => decide (k ≤ j))).logFile =
      some (serializeMessages (fileData.getD [])
        (if opts.incrementalExp = true then
          mergeMessages opts fileData ((records.take k).map Prod.snd)
        else (records.take k).map Prod.snd)) ∧
    getMaxId (exportSession opts pageSize ctx usrName false records fileData
        (fun j => decide (k ≤ j))).ctx usrName =
      ((records.take k).map Prod.fst).getLastD 0 := by
  have hchar := enumLoop_cancelAt k records (getMaxId ctx usrName) 0 [] (by omega)
    (by omega)
  rw [Nat.sub_zero] at hchar
  have hallmem : ∀ x ∈ (records.take k).map Prod.fst, getMaxId ctx usrName < x := by
    intro x hx
    obtain ⟨p, hp, rfl⟩ := List.mem_map.mp hx
    exact habove p (List.take_subset k records hp)
  have hpw : List.Pairwise (fun a b : Int => a < b) ((records.take k).map Prod.fst) := by
    rw [List.map_take]
    exact hasc.sublist (List.take_sublist k _)
  have hfold : List.foldl (fun mx id => if id > mx then id else mx) (getMaxId ctx usrName)
      ((records.take k).map Prod.fst) =
      ((records.take k).map Prod.fst).getLastD (getMaxId ctx usrName) :=
    foldl_max_ascending _ _ hallmem hpw
  have hne : (records.take k).map Prod.fst ≠ [] := by
    have hlen : ((records.take k).map Prod.fst).length = k := by
      rw [List.length_map, List.length_take]
      omega
    intro hcon
    rw [hcon] at hlen
    simp at hlen
    omega
  have hlast : ((records.take k).map Prod.fst).getLastD (getMaxId ctx usrName) =
      ((records.take k).map Prod.fst).getLastD 0 := getLastD_irrel _ _ _ hne
  have hlastpos : 0 < ((records.take k).map Prod.fst).getLastD 0 := by
    have hmem := getLastD_mem ((records.take k).map Prod.fst) 0 hne
    obtain ⟨p, hp, heq⟩ := List.mem_map.mp hmem
    rw [← heq]
    exact hpos p (List.take_subset k records hp)
  simp only [exportSession, Bool.false_eq_true, if_false, apply_ite SessionExport.numberOfMsgs,
    apply_ite SessionExport.logFile, apply_ite SessionExport.ctx, ite_self]
  rw [hchar]
  simp only [List.reverse_nil, List.nil_append]
  rw [hfold, hlast, if_pos hlastpos, getMaxId_setMaxId_self]
  simp

/-- Witness for C5: cancellation after 3 of 10 records on an incremental
ascending run with two prior fragments. -/
theorem exportSession_cancel_flush_witness :
    (exportSession ⟨false, false, false, true⟩ 1000 ⟨⟨false, false, false, true⟩, []⟩ "chat"
        false [(1, [10]), (2, [20]), (3, [30]), (4, [40]), (5, [50]), (6, [60]), (7, [70]),
          (8, [80]), (9, [90]), (10, [100])]
        (some (serializeMessages [] [[7], [8]])) (fun j => decide (3 ≤ j))).numberOfMsgs = 3 ∧
    (exportSession ⟨false, false, false, true⟩ 1000 ⟨⟨false, false, false, true⟩, []⟩ "chat"
        false [(1, [10]), (2, [20]), (3, [30]), (4, [40]), (5, [50]), (6, [60]), (7, [70]),
          (8, [80]), (9, [90]), (10, [100])]
        (some (serializeMessages [] [[7], [8]])) (fun j => decide (3 ≤ j))).logFile =
      some (serializeMessages [] [[7], [8], [10], [20], [30]]) ∧
    getMaxId (exportSession ⟨false, false, false, true⟩ 1000
        ⟨⟨false, false, false, true⟩, []⟩ "chat"
        false [(1, [10]), (2, [20]), (3, [30]), (4, [40]), (5, [50]), (6, [60]), (7, [70]),
          (8, [80]), (9, [90]), (10, [100])]
        (some (serializeMessages [] [[7], [8]])) (fun j => decide (3 ≤ j))).ctx "chat" = 3 := by
  have h := exportSession_cancel_flush ⟨false, false, false, true⟩ 1000
    ⟨⟨false, false, false, true⟩, []⟩ "chat"
    [(1, [10]), (2, [20]), (3, [30]), (4, [40]), (5, [50]), (6, [60]), (7, [70]),
      (8, [80]), (9, [90]), (10, [100])]
    (some (serializeMessages [] [[7], [8]])) 3 (by decide) (by decide) (by decide)
    (by decide) (by decide)
  obtain ⟨h1, h2, h3⟩ := h
  refine ⟨h1, ?_, ?_⟩
  · rw [h2]
    decide
  · rw [h3]
    decide

theorem enumLoop_noCancel :
    ∀ (records : List (Int × List Nat)) (maxId : Int) (n : Nat) (acc : List (List Nat)),
      enumLoop (fun _ => false) records maxId n acc =
        (List.foldl (fun mx id => if id > mx then id else mx) maxId (records.map Prod.fst),
          n + records.length, acc.reverse ++ records.map Prod.snd) := by
  intro records
  induction records with
  | nil => intro maxId n acc; simp [enumLoop]
  | cons p rest ih =>
    intro maxId n acc
    obtain ⟨msgId, frag⟩ := p
    have hstep : enumLoop (fun _ => false) ((msgId, frag) :: rest) maxId n acc =
        enumLoop (fun _ => false) rest (if msgId > maxId then msgId else maxId) (n + 1)
          (frag :: acc) := by
      simp [enumLoop]
    rw [hstep, ih]
    simp only [List.map_cons, List.foldl_cons, List.length_cons, List.reverse_cons,
      List.append_assoc, List.singleton_append, Prod.mk.injEq, eq_self_iff_true, true_and,
      and_true]
    omega

theorem scenarioRecords_snd_length : (scenarioRecords.map Prod.snd).length = 1500 := by
  rw [List.length_map, scenarioRecords, List.length_map, List.length_range]

theorem scenarioRecords_fst :
    scenarioRecords.map Prod.fst = (List.range 1500).map (fun i : Nat => (i : Int) + 1) := by
  rw [scenarioRecords, List.map_map]
  rfl

theorem buildPages_one (messages : List (List Nat)) (pageSize b : Nat) :
    buildPages messages pageSize b 1 = [(messages.drop b).take (messages.length - b)] := rfl

set_option maxRecDepth 8000 in
/-- Full evaluation of the pagination scenario: one shell document with
the first page inline, one data-chunk page with the remaining fragments,
high-water mark 1500. -/
theorem scenarioResult_eval :
    scenarioResult =
      { ctx := setMaxId { options := scenarioOpts, maxIds := [] } "chat" 1500,
        logFile := some (serializeMessages [] (scenarioRecords.map Prod.snd)),
        numberOfMsgs := 1500,
        shell := some ((scenarioRecords.map Prod.snd).take 1000),
        dataPages := [((scenarioRecords.map Prod.snd).drop 1000).take 500] } := by
  have hpw : List.Pairwise (fun a b : Int => a < b) (scenarioRecords.map Prod.fst) := by
    rw [scenarioRecords_fst]
    refine List.Pairwise.map (fun i : Nat => (i : Int) + 1) ?_ (List.pairwise_lt_range 1500)
    intro a b hab
    show (a : Int) + 1 < (b : Int) + 1
    omega
  have hall : ∀ x ∈ scenarioRecords.map Prod.fst,
      getMaxId { options := scenarioOpts, maxIds := [] } "chat" < x := by
    rw [scenarioRecords_fst]
    intro x hx
    obtain ⟨i, hi, rfl⟩ := List.mem_map.mp hx
    show (0 : Int) < (i : Int) + 1
    omega
  have hfold : List.foldl (fun mx id => if id > mx then id else mx)
      (getMaxId { options := scenarioOpts, maxIds := [] } "chat")
      (scenarioRecords.map Prod.fst) = 1500 := by
    rw [foldl_max_ascending _ _ hall hpw, scenarioRecords_fst]
    rw [show (1500 : Nat) = 1499 + 1 from rfl, List.range_succ, List.map_append]
    rw [show (List.map (fun i : Nat => (i : Int) + 1) [1499]) = [(1500 : Int)] from by
      norm_num]
    exact List.getLastD_concat _ _ _
  have hlen : scenarioRecords.length = 1500 := by
    rw [scenarioRecords, List.length_map, List.length_range]
  have hT1 : (enumLoop (fun _ => false) scenarioRecords
      (getMaxId { options := scenarioOpts, maxIds := [] } "chat") 0 []).1 = 1500 := by
    conv_lhs => rw [enumLoop_noCancel]
    dsimp only
    exact hfold
  have hT2 : (enumLoop (fun _ => false) scenarioRecords
      (getMaxId { options := scenarioOpts, maxIds := [] } "chat") 0 []).2.1 = 1500 := by
    conv_lhs => rw [enumLoop_noCancel]
    dsimp only
    rw [Nat.zero_add, hlen]
  have hT3 : (enumLoop (fun _ => false) scenarioRecords
      (getMaxId { options := scenarioOpts, maxIds := [] } "chat") 0 []).2.2 =
      scenarioRecords.map Prod.snd := by
    conv_lhs => rw [enumLoop_noCancel]
    dsimp only
    rw [List.reverse_nil, List.nil_append]
  have hne : scenarioRecords.map Prod.snd ≠ [] := by
    intro hcon
    have hl := scenarioRecords_snd_length
    rw [hcon] at hl
    simp at hl
  simp only [scenarioResult, exportSession, Bool.false_eq_true, if_false, -reduceIte]
  rw [hT1, hT2, hT3]
  rw [if_pos (by norm_num : (1500 : Int) > 0)]
  have hmerge : (if scenarioOpts.incrementalExp = true then
      mergeMessages scenarioOpts none (scenarioRecords.map Prod.snd)
    else scenarioRecords.map Prod.snd) = scenarioRecords.map Prod.snd := by
    rw [if_pos (show scenarioOpts.incrementalExp = true from rfl)]
    rw [show mergeMessages scenarioOpts none (scenarioRecords.map Prod.snd) =
      unserializeMessages none [] ++ scenarioRecords.map Prod.snd from rfl]
    rw [show unserializeMessages none ([] : List (List Nat)) = [] from rfl, List.nil_append]
  rw [hmerge]
  rw [if_pos (⟨by norm_num, hne⟩ :
    0 < 1500 ∧ scenarioRecords.map Prod.snd ≠ [])]
  have hcond : ¬ (scenarioOpts.textMode = true ∨ scenarioOpts.syncLoading = true ∨
      (scenarioRecords.map Prod.snd).length ≤ 1000) := by
    rw [scenarioRecords_snd_length]
    simp [scenarioOpts]
  rw [if_neg hcond]
  have hpages : ((scenarioRecords.map Prod.snd).length - 1000 + 1000 - 1) / 1000 = 1 := by
    rw [scenarioRecords_snd_length]
  rw [hpages]
  have hdp : (if scenarioOpts.syncLoading = false ∧ 0 < 1 then
      buildPages (scenarioRecords.map Prod.snd) 1000 1000 1 else []) =
      [((scenarioRecords.map Prod.snd).drop 1000).take 500] := by
    rw [if_pos (⟨rfl, by norm_num⟩ : scenarioOpts.syncLoading = false ∧ 0 < 1)]
    rw [buildPages_one, scenarioRecords_snd_length]
  rw [hdp]
  rw [show (Option.getD (none : Option (List Nat)) []) = [] from rfl]

/-- C2 counterexample: in the 1500-record scenario with page size 1000
(non-text, non-synchronous, first run) the export writes one data-chunk
page file, not the two the claim asserts. -/
theorem exportSession_scenario_cex : scenarioResult.dataPages.length ≠ 2 := by
  rw [scenarioResult_eval]
  simp

/-- C2 amended: in the 1500-record scenario with page size 1000 the
export renders all 1500 records, produces one shell document carrying the
first 1000 fragments inline plus one data-chunk page file holding the
remaining 500 fragments, and the high-water mark advances to the maximum
enumerated record identifier 1500. -/
theorem exportSession_scenario :
    scenarioResult.numberOfMsgs = 1500 ∧
    scenarioResult.shell.map List.length = some 1000 ∧
    scenarioResult.dataPages.map List.length = [500] ∧
    getMaxId scenarioResult.ctx "chat" = 1500 := by
  rw [scenarioResult_eval]
  refine ⟨rfl, ?_, ?_, ?_⟩
  · show some ((scenarioRecords.map Prod.snd).take 1000).length = some 1000
    rw [List.length_take, scenarioRecords_snd_length]
    norm_num
  · show [(((scenarioRecords.map Prod.snd).drop 1000).take 500).length] = [500]
    rw [List.length_take, List.length_drop, scenarioRecords_snd_length]
    norm_num
  · exact getMaxId_setMaxId_self _ _ _

theorem filter_range_scan_aux (p q m : ITunesFile → Bool) :
    ∀ l : List ITunesFile,
      List.Pairwise (fun a b => p b = true → p a = true) l →
      List.Pairwise (fun a b => q a = true → q b = true) l →
      (∀ e ∈ l, m e = true → p e = false ∧ q e = false) →
      ((l.dropWhile p).takeWhile (fun e => !(q e))).filter (fun e => m e) =
        l.filter (fun e => m e) := by
  intro l
  induction l with
  | nil => intro _ _ _; rfl
  | cons x t ih =>
    intro hp hq hm
    obtain ⟨hpx, hpt⟩ := List.pairwise_cons.mp hp
    obtain ⟨hqx, hqt⟩ := List.pairwise_cons.mp hq
    by_cases hpxv : p x = true
    · have hmx : m x = false := by
        cases hfx : m x with
        | false => rfl
        | true => simp [(hm x (by simp) hfx).1] at hpxv
      rw [List.dropWhile_cons_of_pos hpxv]
      rw [ih hpt hqt (fun e he => hm e (by simp [he]))]
      rw [List.filter_cons_of_neg (by simp [hmx])]
    · rw [List.dropWhile_cons_of_neg hpxv]
      by_cases hqxv : q x = true
      · rw [List.takeWhile_cons_of_neg (by simp [hqxv])]
        have hmx : m x = false := by
          cases hfx : m x with
          | false => rfl
          | true => simp [(hm x (by simp) hfx).2] at hqxv
        rw [List.filter_nil, List.filter_cons_of_neg (by simp [hmx])]
        symm
        rw [List.filter_eq_nil_iff]
        intro e he hme
        have hqe : q e = true := hqx e he hqxv
        simp [(hm e (by simp [he]) (by simpa using hme)).2] at hqe
      · have hdrop : t.dropWhile p = t := by
          cases t with
          | nil => rfl
          | cons y t2 =>
            have hpy : ¬ p y = true := by
              intro hf
              exact hpxv (hpx y (by simp) hf)
            exact List.dropWhile_cons_of_neg hpy
        have htail := ih hpt hqt (fun e he => hm e (by simp [he]))
        rw [hdrop] at htail
        rw [List.takeWhile_cons_of_pos (by simp [hqxv])]
        by_cases hmx : m x = true
        · rw [List.filter_cons_of_pos (by simpa using hmx),
            List.filter_cons_of_pos (by simpa using hmx), htail]
        · rw [List.filter_cons_of_neg (by simpa using hmx),
            List.filter_cons_of_neg (by simpa using hmx), htail]

/-- C7: on a catalog partitioned consistently with the caller-supplied
comparator (the `std::equal_range` precondition), with matching records
lying inside the bounded range, `ITunesDb::filter` returns exactly the
records the filter accepts, in catalog order — the same output as a
brute-force linear scan of the whole catalog. -/
theorem ITunesDb_filter_range_scan (db : ITunesDb) (f : TFilter)
    (hlo : List.Pairwise (fun a b => f.fileLtObj b = true → f.fileLtObj a = true) db.files)
    (hhi : List.Pairwise (fun a b => f.objLtFile a = true → f.objLtFile b = true) db.files)
    (hmatch : ∀ e ∈ db.files, f.matchesObj e = true →
      f.fileLtObj e = false ∧ f.objLtFile e = false) :
    db.filter f = db.files.filter (fun e => f.matchesObj e) :=
  filter_range_scan_aux f.fileLtObj f.objLtFile f.matchesObj db.files hlo hhi hmatch

/-- Witness for C7: a three-record catalog with a range filter selecting
the middle record. -/
theorem ITunesDb_filter_range_scan_witness :
    ITunesDb.filter ⟨[⟨"1", "a", 0⟩, ⟨"2", "b", 1⟩, ⟨"3", "c", 2⟩]⟩
      ⟨fun e => decide (e.flags < 1), fun e => decide (2 ≤ e.flags),
        fun e => decide (e.flags = 1)⟩ =
      List.filter (fun e => decide (e.flags = 1))
        [⟨"1", "a", 0⟩, ⟨"2", "b", 1⟩, ⟨"3", "c", 2⟩] :=
  ITunesDb_filter_range_scan ⟨[⟨"1", "a", 0⟩, ⟨"2", "b", 1⟩, ⟨"3", "c", 2⟩]⟩
    ⟨fun e => decide (e.flags < 1), fun e => decide (2 ≤ e.flags),
      fun e => decide (e.flags = 1)⟩ (by decide) (by decide) (by decide)

/-- C8: loading the persisted export context from absent or empty file
content, from content the context class cannot unserialize, or from a
context describing zero conversations never yields an error: it reports
"no prior context", and the pass then proceeds as a fresh run whose
context has an empty per-conversation mapping and whose options are the
current pass options. -/
theorem loadExportContext_fresh (opts : SPOptions)
    (unser : List Nat → Option ExportContext) (contents : List Nat)
    (h : contents.isEmpty = true ∨ unser contents = none ∨
      (∃ c, unser contents = some c ∧ getNumberOfSessions c = 0)) :
    loadExportContext unser contents = none ∧
    runImplContextSetup opts unser contents = ({ options := opts, maxIds := [] }, opts) := by
  have hload : loadExportContext unser contents = none := by
    rcases h with h1 | h2 | ⟨c, hc, hn⟩
    · simp [loadExportContext, h1]
    · simp [loadExportContext, h2]
    · simp [loadExportContext, hc, hn]
  refine ⟨hload, ?_⟩
  by_cases hi : opts.incrementalExp = true
  · simp [runImplContextSetup, hi, hload]
  · simp [runImplContextSetup, hi]

/-- Witness for C8: empty file content on an incremental run. -/
theorem loadExportContext_fresh_witness :
    loadExportContext (fun _ => none) [] = none ∧
    runImplContextSetup ⟨false, false, false, true⟩ (fun _ => none) [] =
      ({ options := ⟨false, false, false, true⟩, maxIds := [] }, ⟨false, false, false, true⟩) :=
  loadExportContext_fresh ⟨false, false, false, true⟩ (fun _ => none) [] (Or.inl (by decide))

/-- C9: loading the backup index succeeds exactly when the primary
application domain loads — the companion shared-group domain result is
ignored, so its absence is tolerated — and when the primary load fails
the pass aborts before producing any output. -/
theorem loadITunes_primary_fatal (primaryOk shareOk : Bool) (outputs : List String) :
    loadITunes primaryOk shareOk = primaryOk ∧
    runImplOutputs primaryOk shareOk outputs =
      (if primaryOk = true then outputs else []) := by
  cases primaryOk <;> simp [loadITunes, runImplOutputs]

/-- Witness for C4 at a concrete context, conversation and record list. -/
theorem exportSession_maxId_monotone_witness :
    getMaxId ⟨⟨false, false, false, false⟩, [("a", 5)]⟩ "a" ≤
      getMaxId (exportSession ⟨false, false, false, false⟩ 1000
        ⟨⟨false, false, false, false⟩, [("a", 5)]⟩ "a" false [(9, [1])] none
        (fun _ => false)).ctx "a" ∧
    ("b" = "a" ∨ getMaxId (exportSession ⟨false, false, false, false⟩ 1000
        ⟨⟨false, false, false, false⟩, [("a", 5)]⟩ "a" false [(9, [1])] none
        (fun _ => false)).ctx "b" = getMaxId ⟨⟨false, false, false, false⟩, [("a", 5)]⟩ "b") :=
  exportSession_maxId_monotone ⟨false, false, false, false⟩ 1000
    ⟨⟨false, false, false, false⟩, [("a", 5)]⟩ "a" "b" false [(9, [1])] none (fun _ => false)

/-- Witness for C9 at a successful primary load and a failed shared-group
load. -/
theorem loadITunes_primary_fatal_witness :
    loadITunes true false = true ∧
    runImplOutputs true false ["index"] = (if (true : Bool) = true then ["index"] else []) :=
  loadITunes_primary_fatal true false ["index"]
